import Mathlib

/-!
Verification of the SCAP/XCCDF extraction engine in extract_info.py.

The Python module parses SCAP datastream XML documents with
xml.etree.ElementTree and extracts profiles, rules, parameters and
compliance-framework references into a nested database.  We embed the
parsed XML tree as an inductive type of elements and translate each
extraction function.  Python strings are modelled by Lean strings; the
ASCII-only case conversions of the classifier are modelled by explicit
per-character maps matching Python str.lower and str.upper on ASCII
input; the substring test of the Python in-operator is modelled by an
executable infix search.  ElementTree peculiarities are preserved:
truthiness of an element is whether it has children, find with a path
returns the first matching descendant in document order, and findall
with a leading dot-slash-slash returns all strict descendants in
document order.
-/

/-- A parsed XML element: namespace URI, local tag name, attributes,
text content and child elements, as produced by ElementTree. -/
inductive Elem : Type where
  | mk (ns : String) (tag : String) (attrs : List (String × String))
       (text : Option String) (children : List Elem)

mutual

def Elem.decEq : (a b : Elem) → Decidable (a = b)
  | .mk n1 t1 a1 x1 c1, .mk n2 t2 a2 x2 c2 =>
    if h1 : n1 = n2 then
      if h2 : t1 = t2 then
        if h3 : a1 = a2 then
          if h4 : x1 = x2 then
            match Elem.decEqList c1 c2 with
            | isTrue h5 => isTrue (by rw [h1, h2, h3, h4, h5])
            | isFalse h5 => isFalse (by intro h; injection h; contradiction)
          else isFalse (by intro h; injection h; contradiction)
        else isFalse (by intro h; injection h; contradiction)
      else isFalse (by intro h; injection h; contradiction)
    else isFalse (by intro h; injection h; contradiction)

def Elem.decEqList : (a b : List Elem) → Decidable (a = b)
  | [], [] => isTrue rfl
  | [], _ :: _ => isFalse (by intro h; injection h)
  | _ :: _, [] => isFalse (by intro h; injection h)
  | c :: cs, d :: ds =>
    match Elem.decEq c d, Elem.decEqList cs ds with
    | isTrue h1, isTrue h2 => isTrue (by rw [h1, h2])
    | isFalse h1, _ => isFalse (by intro h; injection h; contradiction)
    | _, isFalse h2 => isFalse (by intro h; injection h; contradiction)

end

instance : DecidableEq Elem := Elem.decEq

def Elem.ns : Elem → String
  | .mk n _ _ _ _ => n

def Elem.tag : Elem → String
  | .mk _ t _ _ _ => t

def Elem.attrs : Elem → List (String × String)
  | .mk _ _ a _ _ => a

def Elem.text : Elem → Option String
  | .mk _ _ _ x _ => x

def Elem.children : Elem → List Elem
  | .mk _ _ _ _ c => c

mutual

/-- All strict descendants of an element in document (preorder) order;
this is what an ElementTree findall with a dot-slash-slash path ranges
over. -/
def Elem.descendants : Elem → List Elem
  | .mk _ _ _ _ children => descList children

def descList : List Elem → List Elem
  | [] => []
  | c :: rest => c :: (Elem.descendants c ++ descList rest)

end

/-- Attribute lookup, Python Element.get with no default. -/
def Elem.getAttr (e : Elem) (k : String) : Option String :=
  (e.attrs.find? (fun p => p.1 == k)).map (fun p => p.2)

/-- Attribute lookup with a default, Python Element.get(k, d). -/
def Elem.getAttrD (e : Elem) (k d : String) : String :=
  (e.getAttr k).getD d

/-- Python truthiness of an ElementTree element: an element tests true
exactly when it has at least one child. -/
def Elem.truthy (e : Elem) : Bool :=
  !e.children.isEmpty

/-- Namespace URI bound to the xccdf key of the NAMESPACES dictionary. -/
def xccdfNS : String := "http://checklists.nist.gov/xccdf/1.2"

/-- Does the element carry the given xccdf-qualified tag? -/
def isTagged (tag : String) (e : Elem) : Bool :=
  e.ns == xccdfNS && e.tag == tag

/-- findall with an xccdf-qualified descendant path. -/
def findallDesc (e : Elem) (tag : String) : List Elem :=
  e.descendants.filter (isTagged tag)

/-- find with a direct-child xccdf-qualified path. -/
def findChild (e : Elem) (tag : String) : Option Elem :=
  e.children.find? (isTagged tag)

/-- find with a descendant path carrying an id-attribute predicate:
first matching descendant in document order. -/
def findDescByIdTag (e : Elem) (tag idv : String) : Option Elem :=
  e.descendants.find? (fun c => isTagged tag c && c.getAttr "id" == some idv)

/- ------------------------------------------------------------------ -/
/- Python string operations on ASCII data.                            -/
/- ------------------------------------------------------------------ -/

/-- Substring occurrence at some position: the embedding of the Python
in-operator on strings, at the character-list level. -/
def isSubOf (pat : List Char) : List Char → Bool
  | [] => pat.isEmpty
  | c :: rest => pat.isPrefixOf (c :: rest) || isSubOf pat rest

/-- The Python in-operator on strings. -/
def pyContains (s sub : String) : Bool :=
  isSubOf sub.toList s.toList

/-- Python str.lower on an ASCII character. -/
def pyLowerChar : Char → Char
  | 'A' => 'a' | 'B' => 'b' | 'C' => 'c' | 'D' => 'd' | 'E' => 'e'
  | 'F' => 'f' | 'G' => 'g' | 'H' => 'h' | 'I' => 'i' | 'J' => 'j'
  | 'K' => 'k' | 'L' => 'l' | 'M' => 'm' | 'N' => 'n' | 'O' => 'o'
  | 'P' => 'p' | 'Q' => 'q' | 'R' => 'r' | 'S' => 's' | 'T' => 't'
  | 'U' => 'u' | 'V' => 'v' | 'W' => 'w' | 'X' => 'x' | 'Y' => 'y'
  | 'Z' => 'z'
  | c => c

/-- Python str.upper on an ASCII character. -/
def pyUpperChar : Char → Char
  | 'a' => 'A' | 'b' => 'B' | 'c' => 'C' | 'd' => 'D' | 'e' => 'E'
  | 'f' => 'F' | 'g' => 'G' | 'h' => 'H' | 'i' => 'I' | 'j' => 'J'
  | 'k' => 'K' | 'l' => 'L' | 'm' => 'M' | 'n' => 'N' | 'o' => 'O'
  | 'p' => 'P' | 'q' => 'Q' | 'r' => 'R' | 's' => 'S' | 't' => 'T'
  | 'u' => 'U' | 'v' => 'V' | 'w' => 'W' | 'x' => 'X' | 'y' => 'Y'
  | 'z' => 'Z'
  | c => c

/-- Python str.lower on ASCII strings. -/
def pyLower (s : String) : String :=
  String.mk (s.toList.map pyLowerChar)

/-- Python str.upper on ASCII strings. -/
def pyUpper (s : String) : String :=
  String.mk (s.toList.map pyUpperChar)

/-- Replace every occurrence of a nonempty pattern, scanning left to
right: the embedding of Python str.replace.  The fuel argument is the
length of the scanned list, which bounds the number of steps. -/
def replaceAllAux : Nat → List Char → List Char → List Char → List Char
  | 0, cs, _, _ => cs
  | Nat.succ fuel, cs, pat, rep =>
    match cs with
    | [] => []
    | c :: rest =>
      if pat.isPrefixOf cs then rep ++ replaceAllAux fuel (cs.drop pat.length) pat rep
      else c :: replaceAllAux fuel rest pat rep

/-- Python str.replace for a nonempty pattern. -/
def pyReplace (s pat rep : String) : String :=
  String.mk (replaceAllAux s.toList.length s.toList pat.toList rep.toList)

/-- Python str.startswith. -/
def pyStartsWith (s p : String) : Bool :=
  p.toList.isPrefixOf s.toList

/-- Python str.endswith. -/
def pyEndsWith (s p : String) : Bool :=
  p.toList.isSuffixOf s.toList

/-- Python truthiness of an optional string value: None and the empty
string test false. -/
def pyTruthyStr : Option String → Bool
  | none => false
  | some s => s ≠ ""

/- ------------------------------------------------------------------ -/
/- extract_version_from_text: the ordered regular-expression search.  -/
/- ------------------------------------------------------------------ -/

/-- Python regex whitespace class on ASCII characters. -/
def pyIsSpace (c : Char) : Bool :=
  c = ' ' || c = '\t' || c = '\n' || c = '\x0d' || c = '\x0b' || c = '\x0c'

/-- Python regex word-character class on ASCII characters. -/
def pyIsWord (c : Char) : Bool :=
  ('a' ≤ c && c ≤ 'z') || ('A' ≤ c && c ≤ 'Z') || ('0' ≤ c && c ≤ '9') || c = '_'

/-- Match digits-dot-digits-dot-digits at the start of the list and
return the matched characters: the capture group of the three-component
version patterns.  Each digit run is maximal, exactly as the greedy
regex matches it (a digit run followed by a literal dot admits no
backtracking alternatives). -/
def matchTriple (cs : List Char) : Option (List Char) :=
  let d1 := cs.takeWhile Char.isDigit
  if d1.isEmpty then none
  else
    match cs.dropWhile Char.isDigit with
    | [] => none
    | c2 :: r2 =>
      if c2 = '.' then
        let d2 := r2.takeWhile Char.isDigit
        if d2.isEmpty then none
        else
          match r2.dropWhile Char.isDigit with
          | [] => none
          | c4 :: r4 =>
            if c4 = '.' then
              let d3 := r4.takeWhile Char.isDigit
              if d3.isEmpty then none else some (d1 ++ '.' :: (d2 ++ '.' :: d3))
            else none
      else none

/-- Match digits-dot-digits at the start of the list: the capture group
of the loose two-component pattern. -/
def matchPair (cs : List Char) : Option (List Char) :=
  let d1 := cs.takeWhile Char.isDigit
  if d1.isEmpty then none
  else
    match cs.dropWhile Char.isDigit with
    | [] => none
    | c2 :: r2 =>
      if c2 = '.' then
        let d2 := r2.takeWhile Char.isDigit
        if d2.isEmpty then none else some (d1 ++ '.' :: d2)
      else none

/-- re.search for the first pattern: a literal lowercase v followed by
a three-component number, leftmost occurrence, returning the capture
group. -/
def searchVTriple : List Char → Option (List Char)
  | [] => none
  | c :: rest =>
    if c = 'v' then
      match matchTriple rest with
      | some g => some g
      | none => searchVTriple rest
    else searchVTriple rest

/-- re.search for a literal keyword followed by one or more whitespace
characters and a three-component number, leftmost occurrence, returning
the capture group.  Used with the keywords version and Version. -/
def searchKwTriple (kw : List Char) : List Char → Option (List Char)
  | [] => none
  | c :: rest =>
    match (if kw.isPrefixOf (c :: rest) then
             match ((c :: rest).drop kw.length).takeWhile pyIsSpace with
             | [] => none
             | _ :: _ => matchTriple (((c :: rest).drop kw.length).dropWhile pyIsSpace)
           else none) with
    | some g => some g
    | none => searchKwTriple kw rest

/-- Word boundary immediately before a word character: holds at the
start of the text or after a non-word character. -/
def wordBoundaryBefore : Option Char → Bool
  | none => true
  | some c => !(pyIsWord c)

/-- re.search for the fourth pattern: a word boundary, a literal
lowercase v and a two-component number, leftmost occurrence, returning
the capture group.  The first argument is the character preceding the
current position, if any. -/
def searchBVPair (prev : Option Char) : List Char → Option (List Char)
  | [] => none
  | c :: rest =>
    match (if c == 'v' && wordBoundaryBefore prev then matchPair rest else none) with
    | some g => some g
    | none => searchBVPair (some c) rest

def kwVersionLower : List Char := "version".toList

def kwVersionCap : List Char := "Version".toList

/-- Try the four patterns in their listed order; the first match wins. -/
def searchVersion (cs : List Char) : Option (List Char) :=
  match searchVTriple cs with
  | some g => some g
  | none =>
    match searchKwTriple kwVersionLower cs with
    | some g => some g
    | none =>
      match searchKwTriple kwVersionCap cs with
      | some g => some g
      | none => searchBVPair none cs

/-- extract_version_from_text: Unknown for a missing or empty text,
otherwise the letter v prepended to the first capture group of the
first matching pattern, or Unknown when no pattern matches. -/
def extract_version_from_text (text : Option String) : String :=
  match text with
  | none => "Unknown"
  | some s =>
    if s = "" then "Unknown"
    else
      match searchVersion s.toList with
      | some g => String.mk ('v' :: g)
      | none => "Unknown"

/- ------------------------------------------------------------------ -/
/- extract_references: the five-bucket reference classifier.          -/
/- ------------------------------------------------------------------ -/

/-- The five reference buckets.  The cce bucket stores the raw text
fields of ident elements, which Python appends without a default and
may therefore be missing. -/
structure References where
  cis : List String
  nist : List String
  srg : List String
  stigid : List String
  cce : List (Option String)
deriving DecidableEq

def emptyRefs : References :=
  { cis := [], nist := [], srg := [], stigid := [], cce := [] }

/-- One pass of the if-elif chain classifying a single reference
element into a bucket. -/
def classifyRef (references : References) (ref : Elem) : References :=
  let href := ref.getAttrD "href" ""
  let text := (ref.text).getD ""
  if pyContains (pyLower href) "cisecurity" || pyContains (pyLower href) "cis" then
    { references with cis := references.cis ++ [text] }
  else if pyContains (pyLower href) "nist" then
    { references with nist := references.nist ++ [text] }
  else if pyContains (pyLower href) "disa" && pyContains (pyUpper text) "srg" then
    { references with srg := references.srg ++ [text] }
  else if pyContains (pyLower href) "stigid" then
    { references with stigid := references.stigid ++ [text] }
  else references

/-- One pass of the ident loop appending CCE identifiers. -/
def identStep (references : References) (idt : Elem) : References :=
  if pyContains (pyLower (idt.getAttrD "system" "")) "cce" then
    { references with cce := references.cce ++ [idt.text] }
  else references

def referenceElems (rule : Elem) : List Elem :=
  findallDesc rule "reference"

def identElems (rule : Elem) : List Elem :=
  findallDesc rule "ident"

/-- extract_references: classify every reference descendant of the rule
element in document order, then append the text of every ident
descendant whose system attribute mentions cce. -/
def extract_references (rule : Elem) : References :=
  (identElems rule).foldl identStep ((referenceElems rule).foldl classifyRef emptyRefs)

/- ------------------------------------------------------------------ -/
/- extract_rule_parameters: the parameter resolver.                   -/
/- ------------------------------------------------------------------ -/

/-- One resolved parameter record: display name, default value, type
and originating Value id.  The name and default fields hold the raw
text of the located child elements and are therefore optional. -/
structure ParamInfo where
  name : Option String
  default : Option String
  type : String
  value_id : String
deriving DecidableEq

/-- The vendor id marker removed from a Value id to obtain the variable
name; Python removes every occurrence with str.replace. -/
def stripVendorId (value_id : String) : String :=
  pyReplace value_id "xccdf_org.ssgproject.content_value_" ""

/-- Python dict assignment on an insertion-ordered association list:
overwrite in place when the key exists, append otherwise. -/
def setKey {α : Type} (m : List (String × α)) (k : String) (v : α) : List (String × α) :=
  if m.any (fun p => p.1 == k) then
    m.map (fun p => if p.1 == k then (k, v) else p)
  else m ++ [(k, v)]

/-- Python dict lookup on an insertion-ordered association list. -/
def getKey? {α : Type} (m : List (String × α)) (k : String) : Option α :=
  (m.find? (fun p => p.1 == k)).map (fun p => p.2)

/-- The value-id attributes of every check-export under every check of
the rule, in document order, with the Python get default of the empty
string. -/
def valueIdsOf (rule : Elem) : List String :=
  ((findallDesc rule "check").flatMap (fun chk => findallDesc chk "check-export")).map
    (fun ce => ce.getAttrD "value-id" "")

/-- The first Value descendant with the given id. -/
def findValue (root : Elem) (vid : String) : Option Elem :=
  findDescByIdTag root "Value" vid

/-- The parameter record built from a located Value element: title text
defaulting to Unknown when there is no title child, value text
defaulting to the empty string when there is no value child, type
attribute defaulting to string. -/
def mkParam (v : Elem) (vid : String) : ParamInfo :=
  { name := match findChild v "title" with
            | some t => t.text
            | none => some "Unknown"
  , default := match findChild v "value" with
               | some d => d.text
               | none => some ""
  , type := v.getAttrD "type" "string"
  , value_id := vid }

/-- One step of the parameter loop: skip an empty value-id, skip a
value-id with no matching Value element, skip a Value element that
tests false (has no children), otherwise store the parameter under the
normalized variable name. -/
def paramStep (root : Elem) (params : List (String × ParamInfo)) (vid : String) :
    List (String × ParamInfo) :=
  if vid ≠ "" then
    match findValue root vid with
    | some v => if v.truthy then setKey params (stripVendorId vid) (mkParam v vid) else params
    | none => params
  else params

/-- extract_rule_parameters: relocate the rule by id; an absent rule or
a rule that tests false yields the empty mapping; otherwise fold the
parameter loop over the value-ids of its check-exports. -/
def extract_rule_parameters (root : Elem) (rule_id : String) : List (String × ParamInfo) :=
  match findDescByIdTag root "Rule" rule_id with
  | none => []
  | some rule =>
    if rule.truthy then (valueIdsOf rule).foldl (paramStep root) [] else []

/- ------------------------------------------------------------------ -/
/- extract_profiles_from_datastream: the profile extractor.           -/
/- ------------------------------------------------------------------ -/

/-- One extracted profile record.  Title and description hold the raw
text of the located child elements, so an element present with no text
yields a missing value, while an absent element yields the documented
defaults.  Selected rule ids are the raw idref attributes. -/
structure ProfileInfo where
  id : String
  title : Option String
  description : Option String
  version : String
  rule_count : Nat
  selected_rule_ids : List (Option String)
deriving DecidableEq

/-- The select descendants of a profile whose selected attribute is the
literal string true. -/
def selectedSelects (p : Elem) : List Elem :=
  p.descendants.filter (fun e => isTagged "select" e && e.getAttr "selected" == some "true")

/-- The profile record built from one Profile element. -/
def mkProfile (p : Elem) : ProfileInfo :=
  let title : Option String :=
    match findChild p "title" with
    | some t => t.text
    | none => some "Unknown"
  let description : Option String :=
    match findChild p "description" with
    | some d => d.text
    | none => some ""
  let sels := selectedSelects p
  { id := p.getAttrD "id" ""
  , title := title
  , description := description
  , version := extract_version_from_text description
  , rule_count := sels.length
  , selected_rule_ids := sels.map (fun r => r.getAttr "idref") }

/-- extract_profiles_from_datastream over the parsed document root. -/
def extract_profiles_from_datastream (root : Elem) : List ProfileInfo :=
  (findallDesc root "Profile").map mkProfile

/- ------------------------------------------------------------------ -/
/- extract_rules_from_datastream: the rule extractor.                 -/
/- ------------------------------------------------------------------ -/

/-- One extracted rule record. -/
structure RuleInfo where
  id : String
  title : Option String
  description : Option String
  severity : String
  rationale : Option String
  references : References
  has_parameters : Bool
  parameters : List (String × ParamInfo)
deriving DecidableEq

/-- The selection set consulted when a profile id is supplied: relocate
the profile by id; an absent profile, or one that tests false (has no
children), contributes the empty set; otherwise the idref attributes of
its selected select descendants. -/
def selectedIdrefsOf (root : Elem) (profile_id : String) : List (Option String) :=
  match findDescByIdTag root "Profile" profile_id with
  | some profile =>
    if profile.truthy then (selectedSelects profile).map (fun r => r.getAttr "idref") else []
  | none => []

/-- The rule record built from one Rule element of the document. -/
def mkRule (root : Elem) (rule : Elem) : RuleInfo :=
  let params := extract_rule_parameters root (rule.getAttrD "id" "")
  { id := rule.getAttrD "id" ""
  , title := match findChild rule "title" with
             | some t => t.text
             | none => some "Unknown"
  , description := match findChild rule "description" with
                   | some d => d.text
                   | none => some ""
  , severity := rule.getAttrD "severity" "unknown"
  , rationale := match findChild rule "rationale" with
                 | some r => r.text
                 | none => some ""
  , references := extract_references rule
  , has_parameters := decide (params.length > 0)
  , parameters := params }

/-- extract_rules_from_datastream over the parsed document root: when a
truthy profile id is supplied, keep only rules whose id is in the
relocated profile's selection set; otherwise keep every rule. -/
def extract_rules_from_datastream (root : Elem) (profile_id : Option String) : List RuleInfo :=
  let selected_rule_ids : List (Option String) :=
    if pyTruthyStr profile_id then selectedIdrefsOf root (profile_id.getD "") else []
  (findallDesc root "Rule").filterMap (fun rule =>
    if pyTruthyStr profile_id && !(selected_rule_ids.contains (some (rule.getAttrD "id" ""))) then
      none
    else some (mkRule root rule))

/- ------------------------------------------------------------------ -/
/- scan_scap_directory: datastream discovery.                         -/
/- ------------------------------------------------------------------ -/

/-- A file below the scan root: its name and the parsed document the
engine obtains when it later calls ET.parse on its path. -/
structure DSFile where
  name : String
  doc : Elem
deriving DecidableEq

/-- A directory below the scan root. -/
structure SSGDir where
  name : String
  files : List DSFile
deriving DecidableEq

/-- The scan root: its path, whether the directory exists at all, and
its subdirectories when it does. -/
structure FileSystem where
  root : String
  rootExists : Bool
  dirs : List SSGDir
deriving DecidableEq

/-- One discovered datastream descriptor; doc is the parsed content of
path. -/
structure DSInfo where
  path : String
  doc : Elem
  version : String
  filename : String
deriving DecidableEq

/-- glob over the vendor-content directory pattern: files and
directories whose name starts with the fixed marker.  glob returns no
matches, and raises nothing, when the root does not exist. -/
def globSsgDirs (fs : FileSystem) : List SSGDir :=
  if fs.rootExists then fs.dirs.filter (fun d => pyStartsWith d.name "scap-security-guide-")
  else []

/-- glob over the datastream file pattern inside one directory. -/
def dsFileMatch (name : String) : Bool :=
  pyStartsWith name "ssg-" && pyEndsWith (String.mk (name.toList.drop 4)) "-ds.xml"

/-- scan_scap_directory: build the mapping from OS identity to the
discovered datastream descriptors.  glob suppresses filesystem errors,
so the scan always yields a mapping. -/
def scan_scap_directory (fs : FileSystem) : Except String (List (String × List DSInfo)) :=
  Except.ok <|
    (globSsgDirs fs).foldl (fun datastreams ssg_dir =>
      let version := pyReplace ssg_dir.name "scap-security-guide-" ""
      (ssg_dir.files.filter (fun f => dsFileMatch f.name)).foldl (fun datastreams ds_file =>
        let basename := ds_file.name
        let os_name := pyReplace (pyReplace basename "ssg-" "") "-ds.xml" ""
        let entry : DSInfo :=
          { path := fs.root ++ "/" ++ ssg_dir.name ++ "/" ++ basename
          , doc := ds_file.doc
          , version := version
          , filename := basename }
        match getKey? datastreams os_name with
        | some lst => setKey datastreams os_name (lst ++ [entry])
        | none => datastreams ++ [(os_name, [entry])]) datastreams) []

/- ------------------------------------------------------------------ -/
/- build_profile_database: the database builder.                      -/
/- ------------------------------------------------------------------ -/

instance : DecidableEq (List (String × List RuleInfo)) := inferInstance

instance : DecidableEq (List (String × List (String × List RuleInfo))) := inferInstance

/-- The root database aggregate. -/
structure Database where
  generated : String
  scap_directory : String
  datastreams : List (String × List DSInfo)
  profiles : List (String × List (String × List ProfileInfo))
  rules : List (String × List (String × List (String × List RuleInfo)))
deriving DecidableEq

/-- build_profile_database: scan, then for every discovered datastream
extract its profiles and, per profile, its filtered rule list, writing
into the triple-nested mapping.  The now argument stands for the
generation timestamp the Python code takes from datetime.now. -/
def build_profile_database (fs : FileSystem) (now : String) : Except String Database :=
  match scan_scap_directory fs with
  | .error e => .error e
  | .ok datastreams =>
    Except.ok <|
      datastreams.foldl (fun db p =>
        let os_name := p.1
        let db : Database :=
          { db with profiles := setKey db.profiles os_name []
                  , rules := setKey db.rules os_name [] }
        p.2.foldl (fun db ds_info =>
          let profiles := extract_profiles_from_datastream ds_info.doc
          let db : Database :=
            { db with profiles := (setKey db.profiles os_name
                (setKey ((getKey? db.profiles os_name).getD []) ds_info.version profiles)) }
          let ruleMap := profiles.foldl (fun m prof =>
            setKey m prof.id (extract_rules_from_datastream ds_info.doc (some prof.id))) []
          { db with rules := (setKey db.rules os_name
              (setKey ((getKey? db.rules os_name).getD []) ds_info.version ruleMap)) }) db)
        { generated := now
        , scap_directory := fs.root
        , datastreams := datastreams
        , profiles := []
        , rules := [] }

/- ------------------------------------------------------------------ -/
/- Concrete documents used as test inputs.                            -/
/- ------------------------------------------------------------------ -/

/-- Fixture profile one: selects rules A and B. -/
def p1Elem : Elem :=
  .mk xccdfNS "Profile" [("id", "p1")] none
    [ .mk xccdfNS "title" [] (some "Profile One") []
    , .mk xccdfNS "select" [("idref", "A"), ("selected", "true")] none []
    , .mk xccdfNS "select" [("idref", "B"), ("selected", "true")] none [] ]

/-- Fixture profile two: selects rules B and C. -/
def p2Elem : Elem :=
  .mk xccdfNS "Profile" [("id", "p2")] none
    [ .mk xccdfNS "title" [] (some "Profile Two") []
    , .mk xccdfNS "select" [("idref", "B"), ("selected", "true")] none []
    , .mk xccdfNS "select" [("idref", "C"), ("selected", "true")] none [] ]

/-- Fixture Value referenced by rule B, default text 5. -/
def varXValueElem : Elem :=
  .mk xccdfNS "Value" [("id", "xccdf_org.ssgproject.content_value_var_x")] none
    [ .mk xccdfNS "value" [] (some "5") [] ]

def ruleAElem : Elem :=
  .mk xccdfNS "Rule" [("id", "A"), ("severity", "medium")] none
    [ .mk xccdfNS "title" [] (some "Rule A") [] ]

def ruleBElem : Elem :=
  .mk xccdfNS "Rule" [("id", "B")] none
    [ .mk xccdfNS "check" [] none
        [ .mk xccdfNS "check-export"
            [("value-id", "xccdf_org.ssgproject.content_value_var_x")] none [] ] ]

def ruleCElem : Elem :=
  .mk xccdfNS "Rule" [("id", "C")] none
    [ .mk xccdfNS "title" [] (some "Rule C") [] ]

/-- The fixture datastream document: two profiles, three rules, one
Value. -/
def fixtureDoc : Elem :=
  .mk xccdfNS "Benchmark" [] none
    [p1Elem, p2Elem, varXValueElem, ruleAElem, ruleBElem, ruleCElem]

/-- The fixture scan root: one vendor directory of version ver holding
one datastream file for OS identity os. -/
def fixtureFS : FileSystem :=
  { root := "/opt"
  , rootExists := true
  , dirs := [ { name := "scap-security-guide-ver"
              , files := [ { name := "ssg-os-ds.xml", doc := fixtureDoc } ] } ] }

/-- A reference entry with a DISA href whose text contains the literal
uppercase SRG marker. -/
def srgRefElem : Elem :=
  .mk xccdfNS "reference" [("href", "https://public.cyber.mil/disa")]
    (some "SRG-OS-000480-GPOS-00227") []

/-- A rule holding only the DISA SRG reference entry. -/
def srgRuleElem : Elem :=
  .mk xccdfNS "Rule" [("id", "srgrule")] none [srgRefElem]

/-- A reference entry whose href names nist.gov and carries no CIS or
STIG markers. -/
def nistRefElem : Elem :=
  .mk xccdfNS "reference" [("href", "https://nvd.nist.gov/800-53")] (some "AC-17") []

/-- An ident element whose system attribute mentions cce. -/
def cceIdentElem : Elem :=
  .mk xccdfNS "ident" [("system", "https://ncp.nist.gov/cce")] (some "CCE-80901-2") []

/-- A rule holding one NIST reference entry and one CCE ident. -/
def cceRuleElem : Elem :=
  .mk xccdfNS "Rule" [("id", "ccerule")] none [nistRefElem, cceIdentElem]

/-- A Value element that exists, carries an id and a type attribute,
but has no child elements, so it tests false in Python. -/
def bareValueElem : Elem :=
  .mk xccdfNS "Value"
    [("id", "xccdf_org.ssgproject.content_value_v1"), ("type", "number")] none []

/-- A rule whose single check-export references the childless Value. -/
def bareValueRuleElem : Elem :=
  .mk xccdfNS "Rule" [("id", "R")] none
    [ .mk xccdfNS "check" [] none
        [ .mk xccdfNS "check-export"
            [("value-id", "xccdf_org.ssgproject.content_value_v1")] none [] ] ]

/-- A document holding the rule and the childless Value it references. -/
def bareValueDoc : Elem :=
  .mk xccdfNS "Benchmark" [] none [bareValueRuleElem, bareValueElem]

/- ------------------------------------------------------------------ -/
/- Helper lemmas.                                                     -/
/- ------------------------------------------------------------------ -/

theorem isSubOf_spec (pat : List Char) : ∀ l : List Char, isSubOf pat l = true ↔ pat <:+: l := by
  intro l
  induction l with
  | nil => simp [isSubOf, List.isEmpty_iff, List.infix_nil]
  | cons c rest ih =>
    simp only [isSubOf, Bool.or_eq_true, List.isPrefixOf_iff_prefix, ih, List.infix_cons_iff]

theorem pyContains_of_infix_of_pyContains {s big small : String}
    (hsb : small.toList <:+: big.toList) (h : pyContains s big = true) :
    pyContains s small = true := by
  unfold pyContains at *
  rw [isSubOf_spec] at *
  exact hsb.trans h

theorem pyContains_lower_of_pyContains {s sub : String}
    (h : pyContains s sub = true)
    (hfix : sub.toList.map pyLowerChar = sub.toList) :
    pyContains (pyLower s) sub = true := by
  unfold pyContains pyLower at *
  rw [isSubOf_spec] at *
  have := h.map pyLowerChar
  rw [hfix] at this
  exact this

theorem truthy_false_children {e : Elem} (h : e.truthy = false) : e.children = [] := by
  cases e with
  | mk n t a x c =>
    simp [Elem.truthy, Elem.children, List.isEmpty_iff] at h
    exact h

theorem descendants_of_truthy_false {e : Elem} (h : e.truthy = false) : e.descendants = [] := by
  cases e with
  | mk n t a x c =>
    have hc : c = [] := truthy_false_children h
    subst hc
    rfl

theorem getKey?_nil {α : Type} (k : String) : getKey? ([] : List (String × α)) k = none := rfl

theorem getKey?_cons {α : Type} (k1 : String) (v1 : α) (m : List (String × α)) (k : String) :
    getKey? ((k1, v1) :: m) k = if k1 == k then some v1 else getKey? m k := by
  simp only [getKey?, List.find?]
  by_cases h : k1 == k
  · simp [h]
  · simp [h]

theorem getKey?_map_overwrite_ne {α : Type} (m : List (String × α)) (k k' : String) (v : α)
    (h : k' ≠ k) :
    getKey? (m.map (fun p => if p.1 == k then (k, v) else p)) k' = getKey? m k' := by
  induction m with
  | nil => rfl
  | cons hd tl ih =>
    obtain ⟨k1, v1⟩ := hd
    simp only [List.map_cons]
    by_cases hk : k1 = k
    · subst hk
      rw [if_pos (by simp)]
      rw [getKey?_cons, getKey?_cons]
      rw [if_neg (by simp [Ne.symm h]), if_neg (by simp [Ne.symm h])]
      exact ih
    · rw [if_neg (by simp [hk])]
      rw [getKey?_cons, getKey?_cons]
      by_cases h2 : k1 = k'
      · subst h2
        rw [if_pos (by simp), if_pos (by simp)]
      · rw [if_neg (by simp [h2]), if_neg (by simp [h2])]
        exact ih

theorem getKey?_map_overwrite_self {α : Type} (m : List (String × α)) (k : String) (v : α)
    (h : m.any (fun p => p.1 == k) = true) :
    getKey? (m.map (fun p => if p.1 == k then (k, v) else p)) k = some v := by
  induction m with
  | nil => simp at h
  | cons hd tl ih =>
    obtain ⟨k1, v1⟩ := hd
    simp only [List.map_cons]
    by_cases hk : k1 = k
    · subst hk
      rw [if_pos (by simp)]
      rw [getKey?_cons]
      rw [if_pos (by simp)]
    · rw [if_neg (by simp [hk])]
      rw [getKey?_cons]
      rw [if_neg (by simp [hk])]
      apply ih
      simp only [List.any_cons, Bool.or_eq_true] at h
      rcases h with h | h
      · exact absurd (by simpa using h) hk
      · exact h

theorem getKey?_append {α : Type} (m1 m2 : List (String × α)) (k : String) :
    getKey? (m1 ++ m2) k = ((getKey? m1 k).or (getKey? m2 k)) := by
  induction m1 with
  | nil => simp [getKey?_nil]
  | cons hd tl ih =>
    obtain ⟨k1, v1⟩ := hd
    simp only [List.cons_append, getKey?_cons]
    by_cases hk : k1 = k
    · rw [if_pos (by simp [hk]), if_pos (by simp [hk])]
      rfl
    · rw [if_neg (by simp [hk]), if_neg (by simp [hk]), ih]

theorem getKey?_eq_none_of_not_any {α : Type} (m : List (String × α)) (k : String)
    (h : m.any (fun p => p.1 == k) = false) : getKey? m k = none := by
  induction m with
  | nil => rfl
  | cons hd tl ih =>
    obtain ⟨k1, v1⟩ := hd
    simp only [List.any_cons, Bool.or_eq_false_iff] at h
    rw [getKey?_cons, if_neg (by simp [h.1]), ih h.2]

theorem getKey?_setKey {α : Type} (m : List (String × α)) (k k' : String) (v : α) :
    getKey? (setKey m k v) k' = if k' = k then some v else getKey? m k' := by
  unfold setKey
  by_cases hany : m.any (fun p => p.1 == k) = true
  · rw [if_pos hany]
    by_cases hk : k' = k
    · subst hk
      rw [if_pos rfl]
      exact getKey?_map_overwrite_self m k' v hany
    · rw [if_neg hk]
      exact getKey?_map_overwrite_ne m k k' v hk
  · rw [if_neg hany]
    rw [getKey?_append]
    by_cases hk : k' = k
    · subst hk
      rw [getKey?_eq_none_of_not_any m k' (eq_false_of_ne_true hany)]
      rw [if_pos rfl]
      simp [getKey?_cons]
    · rw [if_neg hk]
      have h2 : getKey? [(k, v)] k' = none := by
        rw [getKey?_cons, if_neg (by simp; exact fun h => hk h.symm)]
        rfl
      rw [h2]
      simp

theorem getKey?_setKey_self {α : Type} (m : List (String × α)) (k : String) (v : α) :
    getKey? (setKey m k v) k = some v := by
  rw [getKey?_setKey, if_pos rfl]

theorem isSome_getKey?_setKey {α : Type} (m : List (String × α)) (k k' : String) (v : α)
    (h : (getKey? m k').isSome = true) : (getKey? (setKey m k v) k').isSome = true := by
  rw [getKey?_setKey]
  by_cases hk : k' = k
  · simp [hk]
  · simp [hk, h]

/- ------------------------------------------------------------------ -/
/- Claim C9: rule_count equals the selection list length.             -/
/- ------------------------------------------------------------------ -/

/-- Claim C9: for every profile returned by the profile extractor, the
rule_count field equals the length of the selected_rule_ids list, both
being derived from the same list of selected select elements. -/
theorem c9_rule_count_eq_selected_length (root : Elem) (P : ProfileInfo)
    (h : P ∈ extract_profiles_from_datastream root) :
    P.rule_count = P.selected_rule_ids.length := by
  rcases List.mem_map.mp h with ⟨p, _, rfl⟩
  simp [mkProfile]

/-- Witness for C9 at the fixture document's first profile. -/
theorem c9_witness :
    (mkProfile p1Elem).rule_count = (mkProfile p1Elem).selected_rule_ids.length :=
  c9_rule_count_eq_selected_length fixtureDoc (mkProfile p1Elem) (by decide)

/- ------------------------------------------------------------------ -/
/- Claim C10: an unknown profile id yields the empty rule list.       -/
/- ------------------------------------------------------------------ -/

/-- Claim C10: calling the rule extractor with a nonempty profile id
for which no Profile element exists in the document returns the empty
list, not every rule and not an error. -/
theorem c10_unknown_profile_gives_empty (root : Elem) (pid : String)
    (hpid : pid ≠ "")
    (hnone : findDescByIdTag root "Profile" pid = none) :
    extract_rules_from_datastream root (some pid) = [] := by
  unfold extract_rules_from_datastream
  have hsel : selectedIdrefsOf root ((some pid).getD "") = [] := by
    simp only [Option.getD_some]
    unfold selectedIdrefsOf
    rw [hnone]
  have htr : pyTruthyStr (some pid) = true := by
    simp [pyTruthyStr, hpid]
  rw [htr]
  simp only [if_true, hsel]
  have hfun : (fun rule : Elem =>
      if (true && !(List.contains ([] : List (Option String)) (some (rule.getAttrD "id" "")))) = true
      then (none : Option RuleInfo) else some (mkRule root rule)) = fun _ => none := by
    funext rule
    rfl
  rw [hfun]
  simp

/-- Witness for C10 at the fixture document and an id absent from it. -/
theorem c10_witness : extract_rules_from_datastream fixtureDoc (some "nosuch") = [] :=
  c10_unknown_profile_gives_empty fixtureDoc "nosuch" (by decide) (by decide)

/- ------------------------------------------------------------------ -/
/- Claim C2: the fixture round trip through the database builder.     -/
/- ------------------------------------------------------------------ -/

/-- The database built from the fixture scan root; the builder cannot
fail, and the fallback branch is never taken. -/
def fixtureDb : Database :=
  match build_profile_database fixtureFS "t0" with
  | .ok d => d
  | .error _ =>
    { generated := "", scap_directory := "", datastreams := [], profiles := [], rules := [] }

/-- Claim C2: on the fixture datastream with two profiles (p1 selects
A and B, p2 selects B and C), three rules A, B, C, and one Value with
default 5 referenced by B, the built database holds two profiles under
os and ver, the rule lists [A, B] for p1 and [B, C] for p2, and rule
B's var_x parameter default is 5. -/
theorem c2_fixture_round_trip :
    build_profile_database fixtureFS "t0" = Except.ok fixtureDb
    ∧ ((getKey? fixtureDb.profiles "os").bind (fun m => getKey? m "ver")).map
        (fun l => l.length) = some 2
    ∧ (((getKey? fixtureDb.rules "os").bind (fun m => getKey? m "ver")).bind
        (fun m => getKey? m "p1")).map (fun l => l.map (fun r => r.id)) = some ["A", "B"]
    ∧ (((getKey? fixtureDb.rules "os").bind (fun m => getKey? m "ver")).bind
        (fun m => getKey? m "p2")).map (fun l => l.map (fun r => r.id)) = some ["B", "C"]
    ∧ ((((getKey? fixtureDb.rules "os").bind (fun m => getKey? m "ver")).bind
        (fun m => getKey? m "p1")).bind (fun l => l.find? (fun r => r.id == "B"))).bind
        (fun r => (getKey? r.parameters "var_x").map (fun p => p.default)) =
        some (some "5") :=
  ⟨rfl, by decide, by decide, by decide, by decide⟩

/- ------------------------------------------------------------------ -/
/- Claim C3: discovery on empty and on missing scan roots.            -/
/- ------------------------------------------------------------------ -/

/-- Counterexample for C3 as stated: a missing scan root is not a
fatal error; the scan yields the empty mapping, exactly as an existing
root with no matching subdirectory does, because glob returns no
matches for a nonexistent directory instead of raising. -/
theorem c3_counterexample :
    scan_scap_directory { root := "/opt", rootExists := false, dirs := [] } = Except.ok [] :=
  rfl

/-- Claim C3 amended: discovery on an existing scan root with no
subdirectory matching the vendor naming convention yields the empty
mapping without error, and discovery on a missing scan root also
yields the empty mapping without error. -/
theorem c3_amended_empty_and_missing_root :
    (∀ fs : FileSystem, fs.rootExists = true →
      (∀ d ∈ fs.dirs, pyStartsWith d.name "scap-security-guide-" = false) →
      scan_scap_directory fs = Except.ok [])
    ∧ (∀ fs : FileSystem, fs.rootExists = false → scan_scap_directory fs = Except.ok []) := by
  constructor
  · intro fs hroot hnone
    unfold scan_scap_directory globSsgDirs
    rw [hroot]
    have hfil : fs.dirs.filter (fun d => pyStartsWith d.name "scap-security-guide-") = [] := by
      rw [List.filter_eq_nil_iff]
      intro d hd
      simp [hnone d hd]
    simp only [if_true, hfil, List.foldl_nil]
  · intro fs hroot
    unfold scan_scap_directory globSsgDirs
    rw [hroot]
    rfl

/-- Witness for C3 amended, at an existing root holding one
non-matching directory and at a missing root. -/
theorem c3_witness :
    scan_scap_directory
      { root := "/opt", rootExists := true, dirs := [{ name := "docs", files := [] }] } =
      Except.ok []
    ∧ scan_scap_directory { root := "/missing", rootExists := false, dirs := [] } =
      Except.ok [] :=
  ⟨c3_amended_empty_and_missing_root.1 _ rfl (by decide),
   c3_amended_empty_and_missing_root.2 _ rfl⟩

/- ------------------------------------------------------------------ -/
/- Claim C1: profile filtering of the rule extractor.                 -/
/- ------------------------------------------------------------------ -/

/-- Claim C1: for a profile element p located by its nonempty id, every
rule of the document whose id is in p's selection set appears in the
filtered rule list, every rule in the filtered list has its id in p's
selection set (so selection ids with no matching rule contribute
nothing), and calling the extractor with no profile id returns every
rule of the document. -/
theorem c1_rule_extractor_filters_by_selection (root p : Elem) (pid : String)
    (hpid : pid ≠ "")
    (hfind : findDescByIdTag root "Profile" pid = some p) :
    (∀ r ∈ findallDesc root "Rule",
      (some (r.getAttrD "id" "")) ∈ (selectedSelects p).map (fun s => s.getAttr "idref") →
      mkRule root r ∈ extract_rules_from_datastream root (some pid))
    ∧ (∀ R ∈ extract_rules_from_datastream root (some pid),
        (some R.id) ∈ (selectedSelects p).map (fun s => s.getAttr "idref"))
    ∧ extract_rules_from_datastream root none = (findallDesc root "Rule").map (mkRule root) := by
  have htr : pyTruthyStr (some pid) = true := by simp [pyTruthyStr, hpid]
  have hsel : selectedIdrefsOf root pid =
      if p.truthy then (selectedSelects p).map (fun s => s.getAttr "idref") else [] := by
    unfold selectedIdrefsOf
    rw [hfind]
  refine ⟨?_, ?_, ?_⟩
  · intro r hr hmem
    have hpt : p.truthy = true := by
      by_contra hf
      have hft : p.truthy = false := by simpa using hf
      have hempty : selectedSelects p = [] := by
        unfold selectedSelects
        rw [descendants_of_truthy_false hft]
        rfl
      rw [hempty] at hmem
      simp at hmem
    have hcont : (selectedIdrefsOf root pid).contains (some (r.getAttrD "id" "")) = true := by
      apply List.elem_iff.mpr
      rw [hsel, if_pos hpt]
      exact hmem
    simp only [extract_rules_from_datastream, htr, if_true, Option.getD_some]
    apply List.mem_filterMap.mpr
    refine ⟨r, hr, ?_⟩
    rw [hcont]
    rfl
  · intro R hR
    simp only [extract_rules_from_datastream, htr, if_true, Option.getD_some] at hR
    rcases List.mem_filterMap.mp hR with ⟨r, _, heq⟩
    cases hc : (selectedIdrefsOf root pid).contains (some (r.getAttrD "id" "")) with
    | false =>
      rw [hc] at heq
      simp at heq
    | true =>
      rw [hc] at heq
      simp only [Bool.not_true, Bool.and_false, Bool.false_eq_true, if_false,
        Option.some.injEq] at heq
      have hmem : some (r.getAttrD "id" "") ∈ selectedIdrefsOf root pid :=
        List.elem_iff.mp hc
      rw [hsel] at hmem
      cases hpt : p.truthy with
      | false =>
        rw [hpt] at hmem
        simp at hmem
      | true =>
        rw [hpt] at hmem
        simp only [if_true] at hmem
        have hid : R.id = r.getAttrD "id" "" := by
          rw [← heq]
          simp [mkRule]
        rw [hid]
        exact hmem
  · have hdefeq : extract_rules_from_datastream root none =
        (findallDesc root "Rule").filterMap (fun rule => some (mkRule root rule)) := rfl
    rw [hdefeq]
    induction findallDesc root "Rule" with
    | nil => rfl
    | cons hd tl ih => simp [List.filterMap_cons, ih]

/-- Witness for C1 at the fixture document: rule A is selected by
profile p1 and appears in the filtered list. -/
theorem c1_witness :
    mkRule fixtureDoc ruleAElem ∈ extract_rules_from_datastream fixtureDoc (some "p1") :=
  (c1_rule_extractor_filters_by_selection fixtureDoc p1Elem "p1" (by decide) (by decide)).1
    ruleAElem (by decide) (by decide)

/- ------------------------------------------------------------------ -/
/- Claims C5 and C6: the reference classifier.                        -/
/- ------------------------------------------------------------------ -/

theorem pyUpperChar_ne_s (c : Char) : pyUpperChar c ≠ 's' := by
  unfold pyUpperChar
  split <;> simp_all

theorem pyContains_upper_srg_false (t : String) : pyContains (pyUpper t) "srg" = false := by
  by_contra h
  have h2 : isSubOf "srg".toList (pyUpper t).toList = true := by
    simpa [pyContains] using h
  rw [isSubOf_spec] at h2
  rcases h2 with ⟨s, r, hsr⟩
  have hs : 's' ∈ (pyUpper t).toList := by
    rw [← hsr]
    simp
  have hmap : (pyUpper t).toList = t.toList.map pyUpperChar := rfl
  rw [hmap] at hs
  rcases List.mem_map.mp hs with ⟨c, _, hc⟩
  exact pyUpperChar_ne_s c hc

theorem classifyRef_srg (refs : References) (r : Elem) :
    (classifyRef refs r).srg = refs.srg := by
  simp only [classifyRef]
  split
  · rfl
  · split
    · rfl
    · split
      · rename_i hcond
        rw [Bool.and_eq_true] at hcond
        have := pyContains_upper_srg_false ((r.text).getD "")
        rw [hcond.2] at this
        exact absurd this (by simp)
      · split
        · rfl
        · rfl

theorem foldl_classifyRef_srg (l : List Elem) :
    ∀ acc : References, (l.foldl classifyRef acc).srg = acc.srg := by
  induction l with
  | nil => intro acc; rfl
  | cons hd tl ih =>
    intro acc
    rw [List.foldl_cons, ih, classifyRef_srg]

theorem identStep_srg (refs : References) (idt : Elem) :
    (identStep refs idt).srg = refs.srg := by
  unfold identStep
  split
  · rfl
  · rfl

theorem foldl_identStep_srg (l : List Elem) :
    ∀ acc : References, (l.foldl identStep acc).srg = acc.srg := by
  induction l with
  | nil => intro acc; rfl
  | cons hd tl ih =>
    intro acc
    rw [List.foldl_cons, ih, identStep_srg]

/-- Counterexample for C5 as stated: a reference whose href names a
DISA domain and whose text contains the literal uppercase SRG marker is
nevertheless not placed in the SRG bucket. -/
theorem c5_counterexample :
    pyContains (pyLower "https://public.cyber.mil/disa") "disa" = true
    ∧ pyContains "SRG-OS-000480-GPOS-00227" "SRG" = true
    ∧ (extract_references srgRuleElem).srg = [] :=
  ⟨by decide, by decide, by decide⟩

/-- Claim C5 amended: no reference entry is ever placed in the SRG
bucket.  The classifier's SRG test asks whether the lowercase substring
srg occurs inside the uppercased reference text, which no text can
satisfy, so the condition is unsatisfiable and the bucket stays empty
for every rule. -/
theorem c5_amended_srg_bucket_always_empty (rule : Elem) :
    (extract_references rule).srg = [] := by
  unfold extract_references
  rw [foldl_identStep_srg, foldl_classifyRef_srg]
  rfl

theorem classifyRef_cce (refs : References) (r : Elem) :
    (classifyRef refs r).cce = refs.cce := by
  simp only [classifyRef]
  split
  · rfl
  · split
    · rfl
    · split
      · rfl
      · split
        · rfl
        · rfl

theorem mem_cce_foldl_identStep_mono (l : List Elem) :
    ∀ (acc : References) (x : Option String), x ∈ acc.cce →
    x ∈ (l.foldl identStep acc).cce := by
  induction l with
  | nil => intro acc x hx; exact hx
  | cons hd tl ih =>
    intro acc x hx
    rw [List.foldl_cons]
    apply ih
    unfold identStep
    split
    · simp only [List.mem_append]
      exact Or.inl hx
    · exact hx

theorem mem_cce_foldl_identStep (l : List Elem) :
    ∀ (acc : References) (idt : Elem), idt ∈ l →
    pyContains (pyLower (idt.getAttrD "system" "")) "cce" = true →
    idt.text ∈ (l.foldl identStep acc).cce := by
  induction l with
  | nil =>
    intro acc idt h
    simp at h
  | cons hd tl ih =>
    intro acc idt hmem hc
    rcases List.mem_cons.mp hmem with heq | hmem'
    · subst heq
      rw [List.foldl_cons]
      apply mem_cce_foldl_identStep_mono
      unfold identStep
      rw [if_pos hc]
      simp
    · rw [List.foldl_cons]
      exact ih _ idt hmem' hc

/-- Claim C6: a reference entry whose href contains nist.gov and whose
lowered href carries no cis and no stigid marker is appended to the
NIST bucket and to no other bucket; and every ident element whose
system attribute mentions cce contributes its text to the CCE bucket of
the extracted references, independently of reference classification. -/
theorem c6_nist_bucket_and_cce_idents :
    (∀ (refs : References) (ref : Elem),
      pyContains (ref.getAttrD "href" "") "nist.gov" = true →
      pyContains (pyLower (ref.getAttrD "href" "")) "cis" = false →
      pyContains (pyLower (ref.getAttrD "href" "")) "stigid" = false →
      classifyRef refs ref = { refs with nist := refs.nist ++ [(ref.text).getD ""] })
    ∧ (∀ (rule idt : Elem), idt ∈ identElems rule →
      pyContains (pyLower (idt.getAttrD "system" "")) "cce" = true →
      idt.text ∈ (extract_references rule).cce) := by
  constructor
  · intro refs ref hng hcis _
    have hcise : pyContains (pyLower (ref.getAttrD "href" "")) "cisecurity" = false := by
      by_contra hx
      have hx' : pyContains (pyLower (ref.getAttrD "href" "")) "cisecurity" = true := by
        simpa using hx
      have hinf : ("cis".toList : List Char) <:+: "cisecurity".toList :=
        ⟨[], ['e', 'c', 'u', 'r', 'i', 't', 'y'], rfl⟩
      have := pyContains_of_infix_of_pyContains hinf hx'
      rw [hcis] at this
      exact absurd this (by simp)
    have hnist : pyContains (pyLower (ref.getAttrD "href" "")) "nist" = true := by
      have hlow : pyContains (pyLower (ref.getAttrD "href" "")) "nist.gov" = true :=
        pyContains_lower_of_pyContains hng (by decide)
      have hinf : ("nist".toList : List Char) <:+: "nist.gov".toList :=
        ⟨[], ['.', 'g', 'o', 'v'], rfl⟩
      exact pyContains_of_infix_of_pyContains hinf hlow
    simp only [classifyRef]
    rw [if_neg (by simp [hcise, hcis]), if_pos hnist]
  · intro rule idt hmem hc
    unfold extract_references
    exact mem_cce_foldl_identStep _ _ idt hmem hc

/-- Witness for C6 at concrete elements: the nvd.nist.gov reference is
appended to the NIST bucket only, and the cce ident's text reaches the
CCE bucket of its rule. -/
theorem c6_witness :
    classifyRef emptyRefs nistRefElem =
      { emptyRefs with nist := emptyRefs.nist ++ [(nistRefElem.text).getD ""] }
    ∧ cceIdentElem.text ∈ (extract_references cceRuleElem).cce :=
  ⟨c6_nist_bucket_and_cce_idents.1 emptyRefs nistRefElem (by decide) (by decide) (by decide),
   c6_nist_bucket_and_cce_idents.2 cceRuleElem cceIdentElem (by decide) (by decide)⟩

/- ------------------------------------------------------------------ -/
/- Claim C4: the parameter resolver.                                  -/
/- ------------------------------------------------------------------ -/

theorem paramStep_preserves_isSome (root : Elem) (m : List (String × ParamInfo))
    (vid k : String) (h : (getKey? m k).isSome = true) :
    (getKey? (paramStep root m vid) k).isSome = true := by
  unfold paramStep
  split
  · cases hv : findValue root vid with
    | none => exact h
    | some v =>
      show (getKey?
          (if v.truthy = true then setKey m (stripVendorId vid) (mkParam v vid) else m)
          k).isSome = true
      by_cases ht : v.truthy = true
      · rw [if_pos ht]
        exact isSome_getKey?_setKey _ _ _ _ h
      · rw [if_neg ht]
        exact h
  · exact h

theorem foldl_paramStep_isSome_mono (root : Elem) (l : List String) :
    ∀ (m : List (String × ParamInfo)) (k : String), (getKey? m k).isSome = true →
    (getKey? (l.foldl (paramStep root) m) k).isSome = true := by
  induction l with
  | nil => intro m k h; exact h
  | cons hd tl ih =>
    intro m k h
    rw [List.foldl_cons]
    exact ih _ k (paramStep_preserves_isSome root m hd k h)

theorem foldl_paramStep_presence (root : Elem) (l : List String) :
    ∀ (m : List (String × ParamInfo)) (vid : String), vid ∈ l → vid ≠ "" →
    ∀ v : Elem, findValue root vid = some v → v.truthy = true →
    (getKey? (l.foldl (paramStep root) m) (stripVendorId vid)).isSome = true := by
  induction l with
  | nil =>
    intro m vid h
    simp at h
  | cons hd tl ih =>
    intro m vid hmem hne v hv ht
    rcases List.mem_cons.mp hmem with heq | hmem'
    · subst heq
      rw [List.foldl_cons]
      apply foldl_paramStep_isSome_mono
      unfold paramStep
      rw [if_pos hne]
      simp only [hv]
      rw [if_pos ht, getKey?_setKey_self]
      rfl
    · rw [List.foldl_cons]
      exact ih _ vid hmem' hne v hv ht

theorem foldl_paramStep_provenance (root : Elem) (l : List String) :
    ∀ (m : List (String × ParamInfo)) (k : String) (pr : ParamInfo),
    getKey? (l.foldl (paramStep root) m) k = some pr →
    getKey? m k = some pr ∨
    ∃ vid ∈ l, vid ≠ "" ∧ ∃ v : Elem, findValue root vid = some v ∧ v.truthy = true ∧
      k = stripVendorId vid ∧ pr = mkParam v vid := by
  induction l with
  | nil =>
    intro m k pr h
    exact Or.inl h
  | cons hd tl ih =>
    intro m k pr h
    rw [List.foldl_cons] at h
    rcases ih _ k pr h with h1 | h2
    · by_cases hne : hd ≠ ""
      · unfold paramStep at h1
        rw [if_pos hne] at h1
        cases hv : findValue root hd with
        | none =>
          simp only [hv] at h1
          exact Or.inl h1
        | some v =>
          simp only [hv] at h1
          by_cases ht : v.truthy = true
          · rw [if_pos ht, getKey?_setKey] at h1
            by_cases hk : k = stripVendorId hd
            · rw [if_pos hk] at h1
              exact Or.inr ⟨hd, List.mem_cons_self _ _, hne, v, hv, ht, hk,
                (Option.some.inj h1).symm⟩
            · rw [if_neg hk] at h1
              exact Or.inl h1
          · rw [if_neg ht] at h1
            exact Or.inl h1
      · unfold paramStep at h1
        rw [if_neg hne] at h1
        exact Or.inl h1
    · rcases h2 with ⟨vid, hmem, rest⟩
      exact Or.inr ⟨vid, List.mem_cons_of_mem _ hmem, rest⟩

theorem truthy_of_valueIds_mem {rule : Elem} {vid : String} (h : vid ∈ valueIdsOf rule) :
    rule.truthy = true := by
  by_contra hf
  have hft : rule.truthy = false := by simpa using hf
  have hnil : valueIdsOf rule = [] := by
    unfold valueIdsOf findallDesc
    rw [descendants_of_truthy_false hft]
    rfl
  rw [hnil] at h
  simp at h

/-- Counterexample for C4 as stated: rule R's check-export carries a
value-id, and a Value definition with exactly that id exists in the
document, yet the resolver returns the empty mapping, because the
childless Value element tests false in Python and is skipped. -/
theorem c4_counterexample :
    (findValue bareValueDoc "xccdf_org.ssgproject.content_value_v1").isSome = true
    ∧ "xccdf_org.ssgproject.content_value_v1" ∈ valueIdsOf bareValueRuleElem
    ∧ findDescByIdTag bareValueDoc "Rule" "R" = some bareValueRuleElem
    ∧ extract_rule_parameters bareValueDoc "R" = [] :=
  ⟨by decide, by decide, by decide, by decide⟩

/-- Claim C4 amended: for every check-export value-id under the located
rule, if a Value with that id exists and has at least one child element
then the returned mapping has an entry under the value-id with every
occurrence of the vendor marker removed; the record built from a
located Value defaults its title to Unknown with no title child, its
default value to the empty string with no value child, and its type to
string with no type attribute; and every entry of the mapping arises
from such a resolved, truthy Value, so dangling value-ids and childless
Values contribute nothing, without error. -/
theorem c4_amended_parameter_resolution :
    (∀ (root : Elem) (rule_id vid : String) (rule : Elem),
      findDescByIdTag root "Rule" rule_id = some rule →
      vid ∈ valueIdsOf rule → vid ≠ "" →
      ∀ v : Elem, findValue root vid = some v → v.truthy = true →
      (getKey? (extract_rule_parameters root rule_id) (stripVendorId vid)).isSome = true)
    ∧ (∀ (v : Elem) (vid : String),
      (findChild v "title" = none → (mkParam v vid).name = some "Unknown")
      ∧ (findChild v "value" = none → (mkParam v vid).default = some "")
      ∧ (v.getAttr "type" = none → (mkParam v vid).type = "string"))
    ∧ (∀ (root : Elem) (rule_id k : String) (pr : ParamInfo),
      getKey? (extract_rule_parameters root rule_id) k = some pr →
      ∃ rule : Elem, findDescByIdTag root "Rule" rule_id = some rule ∧
        ∃ vid ∈ valueIdsOf rule, vid ≠ "" ∧ ∃ v : Elem, findValue root vid = some v ∧
          v.truthy = true ∧ k = stripVendorId vid ∧ pr = mkParam v vid) := by
  refine ⟨?_, ?_, ?_⟩
  · intro root rule_id vid rule hrule hmem hne v hv ht
    have hrt : rule.truthy = true := truthy_of_valueIds_mem hmem
    unfold extract_rule_parameters
    simp only [hrule]
    rw [if_pos hrt]
    exact foldl_paramStep_presence root _ _ vid hmem hne v hv ht
  · intro v vid
    refine ⟨?_, ?_, ?_⟩
    · intro h
      simp [mkParam, h]
    · intro h
      simp [mkParam, h]
    · intro h
      simp [mkParam, Elem.getAttrD, h]
  · intro root rule_id k pr h
    unfold extract_rule_parameters at h
    cases hf : findDescByIdTag root "Rule" rule_id with
    | none =>
      simp only [hf] at h
      exact absurd h (by simp [getKey?_nil])
    | some rule =>
      simp only [hf] at h
      by_cases ht : rule.truthy = true
      · rw [if_pos ht] at h
        rcases foldl_paramStep_provenance root _ _ k pr h with h1 | h2
        · exact absurd h1 (by simp [getKey?_nil])
        · exact ⟨rule, rfl, h2⟩
      · rw [if_neg ht] at h
        exact absurd h (by simp [getKey?_nil])

/-- Witness for C4 amended at the fixture: the var_x binding of rule B
is present in the resolved mapping. -/
theorem c4_witness :
    (getKey? (extract_rule_parameters fixtureDoc "B")
      (stripVendorId "xccdf_org.ssgproject.content_value_var_x")).isSome = true :=
  c4_amended_parameter_resolution.1 fixtureDoc "B" "xccdf_org.ssgproject.content_value_var_x"
    ruleBElem (by decide) (by decide) (by decide) varXValueElem (by decide) (by decide)

/- ------------------------------------------------------------------ -/
/- Claims C7 and C8: version inference.                               -/
/- ------------------------------------------------------------------ -/

/-- A nonempty run of digit characters. -/
def isDigitRun (l : List Char) : Prop :=
  l ≠ [] ∧ ∀ c ∈ l, c.isDigit = true

/-- The shape of a three-component capture group: digits, dot, digits,
dot, digits. -/
def TripleShape (g : List Char) : Prop :=
  ∃ d1 d2 d3, isDigitRun d1 ∧ isDigitRun d2 ∧ isDigitRun d3 ∧
    g = d1 ++ '.' :: (d2 ++ '.' :: d3)

/-- The shape of a two-component capture group: digits, dot, digits. -/
def PairShape (g : List Char) : Prop :=
  ∃ d1 d2, isDigitRun d1 ∧ isDigitRun d2 ∧ g = d1 ++ '.' :: d2

theorem takeWhile_run_append (p : Char → Bool) (l r : List Char)
    (hl : ∀ c ∈ l, p c = true) (hr : ∀ c, r.head? = some c → p c = false) :
    (l ++ r).takeWhile p = l ∧ (l ++ r).dropWhile p = r := by
  induction l with
  | nil =>
    simp only [List.nil_append]
    cases r with
    | nil => exact ⟨rfl, rfl⟩
    | cons c rest =>
      have hc : p c = false := hr c rfl
      constructor
      · simp [List.takeWhile_cons, hc]
      · simp [List.dropWhile_cons, hc]
  | cons a l' ih =>
    have ha : p a = true := hl a (List.mem_cons_self _ _)
    have ih' := ih (fun c hc => hl c (List.mem_cons_of_mem _ hc))
    constructor
    · simp [List.takeWhile_cons, ha, ih'.1]
    · simp [List.dropWhile_cons, ha, ih'.2]

theorem takeWhile_run_all (p : Char → Bool) (l : List Char) (hl : ∀ c ∈ l, p c = true) :
    l.takeWhile p = l ∧ l.dropWhile p = [] := by
  have h := takeWhile_run_append p l [] hl (by intro c hc; simp at hc)
  simpa using h

theorem ne_nil_isEmpty_false {l : List Char} (h : l ≠ []) : l.isEmpty = false := by
  cases l with
  | nil => exact absurd rfl h
  | cons a t => rfl


theorem matchTriple_of_shape {d1 d2 d3 : List Char}
    (h1 : isDigitRun d1) (h2 : isDigitRun d2) (h3 : isDigitRun d3) :
    matchTriple (d1 ++ '.' :: (d2 ++ '.' :: d3)) = some (d1 ++ '.' :: (d2 ++ '.' :: d3)) := by
  obtain ⟨h1ne, h1d⟩ := h1
  obtain ⟨h2ne, h2d⟩ := h2
  obtain ⟨h3ne, h3d⟩ := h3
  have t1 := takeWhile_run_append Char.isDigit d1 ('.' :: (d2 ++ '.' :: d3)) h1d
    (by intro c hc; cases hc; decide)
  have t2 := takeWhile_run_append Char.isDigit d2 ('.' :: d3) h2d
    (by intro c hc; cases hc; decide)
  have t3 := takeWhile_run_all Char.isDigit d3 h3d
  simp only [matchTriple, t1.1, t1.2, t2.1, t2.2, t3.1,
    ne_nil_isEmpty_false h1ne, ne_nil_isEmpty_false h2ne, ne_nil_isEmpty_false h3ne]
  rfl

theorem matchPair_of_shape {d1 d2 : List Char}
    (h1 : isDigitRun d1) (h2 : isDigitRun d2) :
    matchPair (d1 ++ '.' :: d2) = some (d1 ++ '.' :: d2) := by
  obtain ⟨h1ne, h1d⟩ := h1
  obtain ⟨h2ne, h2d⟩ := h2
  have t1 := takeWhile_run_append Char.isDigit d1 ('.' :: d2) h1d
    (by intro c hc; cases hc; decide)
  have t2 := takeWhile_run_all Char.isDigit d2 h2d
  simp only [matchPair, t1.1, t1.2, t2.1,
    ne_nil_isEmpty_false h1ne, ne_nil_isEmpty_false h2ne]
  rfl

theorem matchTriple_of_pair_none {d1 d2 : List Char}
    (h1 : isDigitRun d1) (h2 : isDigitRun d2) :
    matchTriple (d1 ++ '.' :: d2) = none := by
  obtain ⟨h1ne, h1d⟩ := h1
  obtain ⟨h2ne, h2d⟩ := h2
  have t1 := takeWhile_run_append Char.isDigit d1 ('.' :: d2) h1d
    (by intro c hc; cases hc; decide)
  have t2 := takeWhile_run_all Char.isDigit d2 h2d
  simp only [matchTriple, t1.1, t1.2, t2.1, t2.2,
    ne_nil_isEmpty_false h1ne, ne_nil_isEmpty_false h2ne]
  rfl

theorem isEmpty_false_ne_nil {l : List Char} (h : l.isEmpty = false) : l ≠ [] := by
  intro hx
  subst hx
  simp at h

theorem tripleShape_of_matchTriple {cs g : List Char} (h : matchTriple cs = some g) :
    TripleShape g := by
  unfold matchTriple at h
  by_cases h1 : (cs.takeWhile Char.isDigit).isEmpty = true
  · rw [if_pos h1] at h
    exact absurd h (by simp)
  · rw [if_neg h1] at h
    cases hd : cs.dropWhile Char.isDigit with
    | nil =>
      simp only [hd] at h
      exact absurd h (by simp)
    | cons c2 r2 =>
      simp only [hd] at h
      by_cases hc2 : c2 = '.'
      · rw [if_pos hc2] at h
        by_cases h2 : (r2.takeWhile Char.isDigit).isEmpty = true
        · rw [if_pos h2] at h
          exact absurd h (by simp)
        · rw [if_neg h2] at h
          cases hd2 : r2.dropWhile Char.isDigit with
          | nil =>
            simp only [hd2] at h
            exact absurd h (by simp)
          | cons c4 r4 =>
            simp only [hd2] at h
            by_cases hc4 : c4 = '.'
            · rw [if_pos hc4] at h
              by_cases h3 : (r4.takeWhile Char.isDigit).isEmpty = true
              · rw [if_pos h3] at h
                exact absurd h (by simp)
              · rw [if_neg h3] at h
                subst hc2
                subst hc4
                refine ⟨cs.takeWhile Char.isDigit, r2.takeWhile Char.isDigit,
                  r4.takeWhile Char.isDigit,
                  ⟨isEmpty_false_ne_nil (by simpa using h1),
                    fun c hc => List.mem_takeWhile_imp hc⟩,
                  ⟨isEmpty_false_ne_nil (by simpa using h2),
                    fun c hc => List.mem_takeWhile_imp hc⟩,
                  ⟨isEmpty_false_ne_nil (by simpa using h3),
                    fun c hc => List.mem_takeWhile_imp hc⟩, ?_⟩
                exact (Option.some.inj h).symm
            · rw [if_neg hc4] at h
              exact absurd h (by simp)
      · rw [if_neg hc2] at h
        exact absurd h (by simp)

theorem pairShape_of_matchPair {cs g : List Char} (h : matchPair cs = some g) :
    PairShape g := by
  unfold matchPair at h
  by_cases h1 : (cs.takeWhile Char.isDigit).isEmpty = true
  · rw [if_pos h1] at h
    exact absurd h (by simp)
  · rw [if_neg h1] at h
    cases hd : cs.dropWhile Char.isDigit with
    | nil =>
      simp only [hd] at h
      exact absurd h (by simp)
    | cons c2 r2 =>
      simp only [hd] at h
      by_cases hc2 : c2 = '.'
      · rw [if_pos hc2] at h
        by_cases h2 : (r2.takeWhile Char.isDigit).isEmpty = true
        · rw [if_pos h2] at h
          exact absurd h (by simp)
        · rw [if_neg h2] at h
          subst hc2
          refine ⟨cs.takeWhile Char.isDigit, r2.takeWhile Char.isDigit,
            ⟨isEmpty_false_ne_nil (by simpa using h1),
              fun c hc => List.mem_takeWhile_imp hc⟩,
            ⟨isEmpty_false_ne_nil (by simpa using h2),
              fun c hc => List.mem_takeWhile_imp hc⟩, ?_⟩
          exact (Option.some.inj h).symm
      · rw [if_neg hc2] at h
        exact absurd h (by simp)

theorem searchVTriple_cons_not_v {c : Char} {rest : List Char} (h : ¬(c = 'v')) :
    searchVTriple (c :: rest) = searchVTriple rest := by
  conv_lhs => unfold searchVTriple
  rw [if_neg h]

theorem searchVTriple_cons_v_none {rest : List Char} (h : matchTriple rest = none) :
    searchVTriple ('v' :: rest) = searchVTriple rest := by
  conv_lhs => unfold searchVTriple
  rw [if_pos rfl, h]

theorem searchVTriple_at_head {g : List Char} (h : TripleShape g) :
    searchVTriple ('v' :: g) = some g := by
  obtain ⟨d1, d2, d3, h1, h2, h3, rfl⟩ := h
  unfold searchVTriple
  rw [if_pos rfl, matchTriple_of_shape h1 h2 h3]

theorem searchVTriple_none_of_no_v {cs : List Char} (h : ∀ c ∈ cs, c ≠ 'v') :
    searchVTriple cs = none := by
  induction cs with
  | nil => rfl
  | cons c rest ih =>
    rw [searchVTriple_cons_not_v (h c (List.mem_cons_self _ _))]
    exact ih fun x hx => h x (List.mem_cons_of_mem _ hx)

theorem tripleShape_of_searchVTriple {cs g : List Char} (h : searchVTriple cs = some g) :
    TripleShape g := by
  induction cs with
  | nil => exact absurd h (by simp [searchVTriple])
  | cons c rest ih =>
    unfold searchVTriple at h
    by_cases hc : c = 'v'
    · rw [if_pos hc] at h
      cases hm : matchTriple rest with
      | some g1 =>
        simp only [hm] at h
        obtain rfl := Option.some.inj h
        exact tripleShape_of_matchTriple hm
      | none =>
        simp only [hm] at h
        exact ih h
    · rw [if_neg hc] at h
      exact ih h

theorem searchKwTriple_cons_skip {kw : List Char} {c : Char} {rest : List Char}
    (h : kw.isPrefixOf (c :: rest) = false) :
    searchKwTriple kw (c :: rest) = searchKwTriple kw rest := by
  conv_lhs => unfold searchKwTriple
  rw [h]
  rfl

theorem tripleShape_of_searchKwTriple {kw cs g : List Char}
    (h : searchKwTriple kw cs = some g) : TripleShape g := by
  induction cs with
  | nil => exact absurd h (by simp [searchKwTriple])
  | cons c rest ih =>
    unfold searchKwTriple at h
    by_cases hp : kw.isPrefixOf (c :: rest) = true
    · rw [if_pos hp] at h
      cases hw : ((c :: rest).drop kw.length).takeWhile pyIsSpace with
      | nil =>
        simp only [hw] at h
        exact ih h
      | cons w ws =>
        simp only [hw] at h
        cases hm : matchTriple (((c :: rest).drop kw.length).dropWhile pyIsSpace) with
        | some g1 =>
          simp only [hm] at h
          obtain rfl := Option.some.inj h
          exact tripleShape_of_matchTriple hm
        | none =>
          simp only [hm] at h
          exact ih h
    · rw [if_neg hp] at h
      exact ih h

theorem searchKwTriple_none_of_digitDot (k0 : Char) (kws : List Char)
    (hk0d : k0.isDigit = false) (hk0p : k0 ≠ '.') :
    ∀ cs : List Char, (∀ c ∈ cs, c.isDigit = true ∨ c = '.') →
    searchKwTriple (k0 :: kws) cs = none := by
  intro cs
  induction cs with
  | nil => intro _; rfl
  | cons c rest ih =>
    intro hall
    have hne : (k0 == c) = false := by
      rcases hall c (List.mem_cons_self _ _) with hd | hd
      · by_contra hx
        have hk : k0 = c := by simpa using hx
        subst hk
        rw [hk0d] at hd
        exact absurd hd (by simp)
      · subst hd
        by_contra hx
        exact hk0p (by simpa using hx)
    have hpre : (k0 :: kws).isPrefixOf (c :: rest) = false := by
      simp [List.isPrefixOf, hne]
    rw [searchKwTriple_cons_skip hpre]
    exact ih fun x hx => hall x (List.mem_cons_of_mem _ hx)

theorem pairShape_of_searchBVPair {cs g : List Char} :
    ∀ prev, searchBVPair prev cs = some g → PairShape g := by
  induction cs with
  | nil =>
    intro prev h
    exact absurd h (by simp [searchBVPair])
  | cons c rest ih =>
    intro prev h
    unfold searchBVPair at h
    by_cases hc : (c == 'v' && wordBoundaryBefore prev) = true
    · rw [if_pos hc] at h
      cases hm : matchPair rest with
      | some g1 =>
        simp only [hm] at h
        obtain rfl := Option.some.inj h
        exact pairShape_of_matchPair hm
      | none =>
        simp only [hm] at h
        exact ih _ h
    · rw [if_neg hc] at h
      exact ih _ h

theorem searchBVPair_at_head {g : List Char} (h : PairShape g) :
    searchBVPair none ('v' :: g) = some g := by
  obtain ⟨d1, d2, h1, h2, rfl⟩ := h
  unfold searchBVPair
  rw [if_pos (by decide), matchPair_of_shape h1 h2]

theorem searchVersion_of_vtriple_head {g : List Char} (h : TripleShape g) :
    searchVersion ('v' :: g) = some g := by
  unfold searchVersion
  rw [searchVTriple_at_head h]

theorem beq_eq_false_of_digit {k a : Char} (hk : k.isDigit = false) (ha : a.isDigit = true) :
    (k == a) = false := by
  by_contra hx
  have hka : k = a := by simpa using hx
  subst hka
  rw [hk] at ha
  exact absurd ha (by simp)

theorem searchVersion_of_vpair_head {g : List Char} (h : PairShape g) :
    searchVersion ('v' :: g) = some g := by
  obtain ⟨d1, d2, h1, h2, rfl⟩ := h
  obtain ⟨a, d1t, rfl⟩ := List.exists_cons_of_ne_nil h1.1
  have ha : a.isDigit = true := h1.2 a (List.mem_cons_self _ _)
  have hdd : ∀ c ∈ (a :: d1t) ++ '.' :: d2, c.isDigit = true ∨ c = '.' := by
    intro c hc
    rcases List.mem_append.mp hc with hx | hx
    · exact Or.inl (h1.2 c hx)
    · rcases List.mem_cons.mp hx with rfl | hx'
      · exact Or.inr rfl
      · exact Or.inl (h2.2 c hx')
  have hnv : ∀ c ∈ (a :: d1t) ++ '.' :: d2, c ≠ 'v' := by
    intro c hc
    rcases hdd c hc with hd | hd
    · intro hx
      subst hx
      exact absurd hd (by decide)
    · subst hd
      decide
  have hs1 : searchVTriple ('v' :: ((a :: d1t) ++ '.' :: d2)) = none := by
    rw [searchVTriple_cons_v_none (matchTriple_of_pair_none h1 h2)]
    exact searchVTriple_none_of_no_v hnv
  have hbody : (a :: d1t) ++ '.' :: d2 = a :: (d1t ++ '.' :: d2) := by
    simp
  have hkl : searchKwTriple kwVersionLower ('v' :: ((a :: d1t) ++ '.' :: d2)) = none := by
    have hpre : kwVersionLower.isPrefixOf ('v' :: ((a :: d1t) ++ '.' :: d2)) = false := by
      show (('v' :: 'e' :: 'r' :: 's' :: 'i' :: 'o' :: 'n' :: []).isPrefixOf
        ('v' :: ((a :: d1t) ++ '.' :: d2))) = false
      rw [hbody]
      simp only [List.isPrefixOf]
      rw [beq_eq_false_of_digit (by decide) ha]
      simp
    rw [searchKwTriple_cons_skip hpre]
    exact searchKwTriple_none_of_digitDot 'v' _ (by decide) (by decide) _ hdd
  have hkc : searchKwTriple kwVersionCap ('v' :: ((a :: d1t) ++ '.' :: d2)) = none := by
    have hpre : kwVersionCap.isPrefixOf ('v' :: ((a :: d1t) ++ '.' :: d2)) = false := by
      show (('V' :: 'e' :: 'r' :: 's' :: 'i' :: 'o' :: 'n' :: []).isPrefixOf
        ('v' :: ((a :: d1t) ++ '.' :: d2))) = false
      simp only [List.isPrefixOf]
      rw [show (('V' : Char) == 'v') = false by decide]
      simp
    rw [searchKwTriple_cons_skip hpre]
    exact searchKwTriple_none_of_digitDot 'V' _ (by decide) (by decide) _ hdd
  have hbv : searchBVPair none ('v' :: ((a :: d1t) ++ '.' :: d2)) =
      some ((a :: d1t) ++ '.' :: d2) :=
    searchBVPair_at_head ⟨a :: d1t, d2, h1, h2, rfl⟩
  unfold searchVersion
  rw [hs1, hkl, hkc, hbv]

theorem mk_v_ne_unknown (g : List Char) : String.mk ('v' :: g) ≠ "Unknown" := by
  intro h
  have h2 : 'v' :: g = "Unknown".toList := congrArg String.toList h
  have h3 : "Unknown".toList = 'U' :: "nknown".toList := rfl
  rw [h3] at h2
  injection h2 with h4 _
  exact absurd h4 (by decide)

theorem mk_v_ne_empty (g : List Char) : String.mk ('v' :: g) ≠ "" := by
  intro h
  have h2 : 'v' :: g = "".toList := congrArg String.toList h
  exact absurd h2 (by simp)

theorem extract_some_eq (s : String) (hs : s ≠ "") :
    extract_version_from_text (some s) =
      match searchVersion s.toList with
      | some g => String.mk ('v' :: g)
      | none => "Unknown" := by
  show (if s = "" then "Unknown"
    else
      match searchVersion s.toList with
      | some g => String.mk ('v' :: g)
      | none => "Unknown") =
    (match searchVersion s.toList with
     | some g => String.mk ('v' :: g)
     | none => "Unknown")
  rw [if_neg hs]

theorem extract_unknown_fixed : extract_version_from_text (some "Unknown") = "Unknown" := by
  decide

theorem extract_fixed_triple {g : List Char} (h : TripleShape g) :
    extract_version_from_text (some (String.mk ('v' :: g))) = String.mk ('v' :: g) := by
  rw [extract_some_eq _ (mk_v_ne_empty g)]
  have hl : (String.mk ('v' :: g)).toList = 'v' :: g := rfl
  rw [hl, searchVersion_of_vtriple_head h]

theorem extract_fixed_pair {g : List Char} (h : PairShape g) :
    extract_version_from_text (some (String.mk ('v' :: g))) = String.mk ('v' :: g) := by
  rw [extract_some_eq _ (mk_v_ne_empty g)]
  have hl : (String.mk ('v' :: g)).toList = 'v' :: g := rfl
  rw [hl, searchVersion_of_vpair_head h]

theorem searchVersion_shape {cs g : List Char} (h : searchVersion cs = some g) :
    TripleShape g ∨ PairShape g := by
  unfold searchVersion at h
  cases h1 : searchVTriple cs with
  | some g1 =>
    simp only [h1] at h
    obtain rfl := Option.some.inj h
    exact Or.inl (tripleShape_of_searchVTriple h1)
  | none =>
    simp only [h1] at h
    cases h2 : searchKwTriple kwVersionLower cs with
    | some g2 =>
      simp only [h2] at h
      obtain rfl := Option.some.inj h
      exact Or.inl (tripleShape_of_searchKwTriple h2)
    | none =>
      simp only [h2] at h
      cases h3 : searchKwTriple kwVersionCap cs with
      | some g3 =>
        simp only [h3] at h
        obtain rfl := Option.some.inj h
        exact Or.inl (tripleShape_of_searchKwTriple h3)
      | none =>
        simp only [h3] at h
        exact Or.inr (pairShape_of_searchBVPair _ h)

theorem extract_version_idem (t : Option String) :
    extract_version_from_text (some (extract_version_from_text t)) =
      extract_version_from_text t := by
  cases t with
  | none =>
    show extract_version_from_text (some "Unknown") = "Unknown"
    exact extract_unknown_fixed
  | some s =>
    by_cases hs : s = ""
    · subst hs
      show extract_version_from_text (some "Unknown") = "Unknown"
      exact extract_unknown_fixed
    · rw [extract_some_eq s hs]
      cases hv : searchVersion s.toList with
      | none => exact extract_unknown_fixed
      | some g =>
        rcases searchVersion_shape hv with hsh | hsh
        · exact extract_fixed_triple hsh
        · exact extract_fixed_pair hsh

/-- Claim C7: version inference is idempotent, and whenever the first
pattern (letter v followed by a three-component number) matches
anywhere in the text, the result is the letter v prepended to that
three-component capture, never a two-component truncation; the spec's
own example is computed. -/
theorem c7_version_inference_idempotent_and_priority :
    (∀ t : Option String,
      extract_version_from_text (some (extract_version_from_text t)) =
        extract_version_from_text t)
    ∧ (∀ (s : String) (g : List Char), searchVTriple s.toList = some g →
        extract_version_from_text (some s) = String.mk ('v' :: g) ∧ TripleShape g)
    ∧ extract_version_from_text (some "prefix v3.0.0 middle v3.0 suffix") = "v3.0.0" := by
  refine ⟨extract_version_idem, ?_, by decide⟩
  intro s g h
  have hs : s ≠ "" := by
    intro hx
    subst hx
    exact absurd h (by simp [searchVTriple])
  constructor
  · rw [extract_some_eq s hs]
    have hsv : searchVersion s.toList = some g := by
      unfold searchVersion
      rw [h]
    rw [hsv]
  · exact tripleShape_of_searchVTriple h

/-- Witness for C7 at concrete text: the three-component form is
matched and returned in full. -/
theorem c7_witness :
    extract_version_from_text (some "v9.8.7") = String.mk ('v' :: "9.8.7".toList)
    ∧ TripleShape "9.8.7".toList :=
  c7_version_inference_idempotent_and_priority.2.1 "v9.8.7" "9.8.7".toList (by decide)

/-- Counterexample for C8 as stated: the keyword written in uppercase
as VERSION followed by a three-component number is not matched, and
inference yields Unknown instead of the version. -/
theorem c8_counterexample :
    extract_version_from_text (some "VERSION 3.0.0") = "Unknown" := by
  decide

theorem searchVersion_none_components {cs : List Char} (h : searchVersion cs = none) :
    searchKwTriple kwVersionLower cs = none ∧ searchKwTriple kwVersionCap cs = none := by
  unfold searchVersion at h
  cases h1 : searchVTriple cs with
  | some g1 =>
    simp only [h1] at h
    exact absurd h (by simp)
  | none =>
    simp only [h1] at h
    cases h2 : searchKwTriple kwVersionLower cs with
    | some g2 =>
      simp only [h2] at h
      exact absurd h (by simp)
    | none =>
      simp only [h2] at h
      cases h3 : searchKwTriple kwVersionCap cs with
      | some g3 =>
        simp only [h3] at h
        exact absurd h (by simp)
      | none => exact ⟨rfl, rfl⟩

/-- Claim C8 amended: the keyword form is matched for the exact casings
version and Version only: for every description in which the lowercase
keyword followed by whitespace and a three-component number occurs, the
result is a version rather than Unknown, and likewise for every
description in which the capitalized keyword form occurs; the two
supported casings yield the version in the spec's example shape, while
the uppercase casing VERSION is not matched and yields Unknown. -/
theorem c8_amended_keyword_casings :
    (∀ s : String, (searchKwTriple kwVersionLower s.toList).isSome = true →
      extract_version_from_text (some s) ≠ "Unknown")
    ∧ (∀ s : String, (searchKwTriple kwVersionCap s.toList).isSome = true →
      extract_version_from_text (some s) ≠ "Unknown")
    ∧ extract_version_from_text (some "app version 3.0.0 here") = "v3.0.0"
    ∧ extract_version_from_text (some "app Version 3.0.0 here") = "v3.0.0"
    ∧ extract_version_from_text (some "app VERSION 3.0.0 here") = "Unknown" := by
  have key : ∀ s : String, s ≠ "" → searchVersion s.toList ≠ none →
      extract_version_from_text (some s) ≠ "Unknown" := by
    intro s hs hv
    rw [extract_some_eq s hs]
    cases hv2 : searchVersion s.toList with
    | some g => exact mk_v_ne_unknown g
    | none => exact absurd hv2 hv
  refine ⟨?_, ?_, by decide, by decide, by decide⟩
  · intro s h
    have hs : s ≠ "" := by
      intro hx
      subst hx
      exact absurd h (by simp [searchKwTriple])
    apply key s hs
    intro hv
    rcases searchVersion_none_components hv with ⟨h2, _⟩
    rw [h2] at h
    simp at h
  · intro s h
    have hs : s ≠ "" := by
      intro hx
      subst hx
      exact absurd h (by simp [searchKwTriple])
    apply key s hs
    intro hv
    rcases searchVersion_none_components hv with ⟨_, h3⟩
    rw [h3] at h
    simp at h

/-- Witness for C8 amended at concrete texts containing the lowercase
and the capitalized keyword. -/
theorem c8_witness :
    extract_version_from_text (some "version 1.2.3") ≠ "Unknown"
    ∧ extract_version_from_text (some "Version 4.5.6") ≠ "Unknown" :=
  ⟨c8_amended_keyword_casings.1 "version 1.2.3" (by decide),
   c8_amended_keyword_casings.2.1 "Version 4.5.6" (by decide)⟩
